import Mathlib

/-!
Verification of the tinyexpr compiler/evaluator engine (tinyexpr.c).

The C code is shallowly embedded.  IEEE-754 doubles are modelled by the type
`TD` below: an exact fraction (`Frac`, an integer numerator over a natural
denominator, kept unnormalised so that all arithmetic is kernel-computable)
or one of the special values +Infinity, -Infinity, NaN.  Every double value
exercised by the claims is a small integer, on which IEEE-754 double
arithmetic is exact, so the exact-fraction idealisation agrees with the C
program everywhere the claims look.  Transcendental libm functions (sin,
exp, ...) whose results are not exactly representable are kept abstract as
fields of a `Sem` record and theorems are proved for every choice of them;
the few libm facts a claim needs (such as pow(2,2) = 4, which IEEE-754
arithmetic produces exactly) appear as explicit hypotheses.

Machine-integer constants follow the ILP32/LP64 Linux ABI the library is
built for: UINT_MAX = 2^32 - 1 and ULONG_MAX = 2^64 - 1.
-/

namespace TinyExpr

/-- An exact fraction: `num / den`.  Denominators are kept positive by
construction in every value the embedded code produces; the representation
is not normalised, and all operations are plain integer arithmetic so that
the kernel can evaluate them. -/
structure Frac where
  num : ℤ
  den : ℕ
deriving DecidableEq, Repr

instance : OfNat Frac n where
  ofNat := ⟨n, 1⟩

instance : Neg Frac where
  neg q := ⟨-q.num, q.den⟩

/-- The rational number a `Frac` denotes. -/
def Frac.val (q : Frac) : ℚ := (q.num : ℚ) / (q.den : ℚ)

/-- Comparison `a < b` by cross-multiplication (correct whenever both
denominators are positive, which holds for every value the code builds). -/
def Frac.blt (a b : Frac) : Bool := decide (a.num * b.den < b.num * a.den)

/-- Test against zero (`x == 0.0` in C). -/
def Frac.isZero (a : Frac) : Bool := decide (a.num = 0)

def Frac.add (a b : Frac) : Frac := ⟨a.num * b.den + b.num * a.den, a.den * b.den⟩

def Frac.sub (a b : Frac) : Frac := ⟨a.num * b.den - b.num * a.den, a.den * b.den⟩

def Frac.mul (a b : Frac) : Frac := ⟨a.num * b.num, a.den * b.den⟩

def Frac.div (a b : Frac) : Frac :=
  if 0 ≤ b.num then ⟨a.num * b.den, a.den * b.num.natAbs⟩
  else ⟨-(a.num * b.den), a.den * b.num.natAbs⟩

def Frac.floor (a : Frac) : ℤ := Int.fdiv a.num a.den

def Frac.ceil (a : Frac) : ℤ := -Int.fdiv (-a.num) a.den

/-- Truncation toward zero, as the C cast of a double to an integer type. -/
def Frac.trunc (a : Frac) : ℤ := if 0 ≤ a.num then a.floor else a.ceil

def Frac.abs (a : Frac) : Frac := ⟨|a.num|, a.den⟩

/-- Model of a C `double`: a finite (exact) value or one of the IEEE-754
special values.  Signed zero is not distinguished; no claim observes it. -/
inductive TD where
  | fin (q : Frac)
  | inf
  | neginf
  | nan
deriving DecidableEq, Repr

/-- IEEE comparison `a < b` as in C: any comparison involving NaN is false. -/
def TD.lt : TD → TD → Bool
  | .fin a, .fin b => a.blt b
  | .fin _, .inf => true
  | .neginf, .fin _ => true
  | .neginf, .inf => true
  | _, _ => false

/-- IEEE addition on the double model (the C operator `add`, tinyexpr.c:315). -/
def add (a b : TD) : TD :=
  match a, b with
  | .nan, _ => .nan
  | _, .nan => .nan
  | .fin x, .fin y => .fin (x.add y)
  | .fin _, .inf => .inf
  | .inf, .fin _ => .inf
  | .inf, .inf => .inf
  | .fin _, .neginf => .neginf
  | .neginf, .fin _ => .neginf
  | .neginf, .neginf => .neginf
  | .inf, .neginf => .nan
  | .neginf, .inf => .nan

/-- IEEE subtraction on the double model (the C operator `sub`, tinyexpr.c:316). -/
def sub (a b : TD) : TD :=
  match a, b with
  | .nan, _ => .nan
  | _, .nan => .nan
  | .fin x, .fin y => .fin (x.sub y)
  | .fin _, .inf => .neginf
  | .inf, .fin _ => .inf
  | .inf, .inf => .nan
  | .fin _, .neginf => .inf
  | .neginf, .fin _ => .neginf
  | .neginf, .neginf => .nan
  | .inf, .neginf => .inf
  | .neginf, .inf => .neginf

/-- IEEE multiplication on the double model (the C operator `mul`,
tinyexpr.c:317); `0 * inf` is NaN. -/
def mul (a b : TD) : TD :=
  match a, b with
  | .nan, _ => .nan
  | _, .nan => .nan
  | .fin x, .fin y => .fin (x.mul y)
  | .fin x, .inf => if x.isZero then .nan else if (0 : Frac).blt x then .inf else .neginf
  | .fin x, .neginf => if x.isZero then .nan else if (0 : Frac).blt x then .neginf else .inf
  | .inf, .fin y => if y.isZero then .nan else if (0 : Frac).blt y then .inf else .neginf
  | .neginf, .fin y => if y.isZero then .nan else if (0 : Frac).blt y then .neginf else .inf
  | .inf, .inf => .inf
  | .inf, .neginf => .neginf
  | .neginf, .inf => .neginf
  | .neginf, .neginf => .inf

/-- IEEE division on the double model (the C operator `divide`,
tinyexpr.c:318).  Without signed zeroes the sign of `x / 0` is taken from
`x` alone. -/
def divide (a b : TD) : TD :=
  match a, b with
  | .nan, _ => .nan
  | _, .nan => .nan
  | .fin x, .fin y =>
      if y.isZero then (if x.isZero then .nan else if (0 : Frac).blt x then .inf else .neginf)
      else .fin (x.div y)
  | .fin _, .inf => .fin 0
  | .fin _, .neginf => .fin 0
  | .inf, .fin y => if y.blt 0 then .neginf else .inf
  | .neginf, .fin y => if y.blt 0 then .inf else .neginf
  | _, _ => .nan

/-- The C helper `negate` (tinyexpr.c:319): declared with a dummy second
argument and installed as an arity-1 node, it returns `-a`. -/
def negate (a : TD) : TD :=
  match a with
  | .fin x => .fin (-x)
  | .inf => .neginf
  | .neginf => .inf
  | .nan => .nan

/-- The C helper `comma` (tinyexpr.c:320): ignores its first argument and
returns the second. -/
def comma (_ b : TD) : TD := b

/-- Model of libm `fmod`, which is exact on doubles:
`fmod(x, y) = x - trunc(x/y) * y`. -/
def fmod (a b : TD) : TD :=
  match a, b with
  | .fin x, .fin y =>
      if y.isZero then .nan
      else .fin (x.sub (y.mul ⟨(x.div y).trunc, 1⟩))
  | .fin x, .inf => .fin x
  | .fin x, .neginf => .fin x
  | _, _ => .nan

/-- Model of libm `fabs`. -/
def fabs (a : TD) : TD :=
  match a with
  | .fin x => .fin x.abs
  | .inf => .inf
  | .neginf => .inf
  | .nan => .nan

/-- Model of libm `ceil` (exact on doubles). -/
def tceil (a : TD) : TD :=
  match a with
  | .fin x => .fin ⟨x.ceil, 1⟩
  | x => x

/-- Model of libm `floor` (exact on doubles). -/
def tfloor (a : TD) : TD :=
  match a with
  | .fin x => .fin ⟨x.floor, 1⟩
  | x => x

/-- `UINT_MAX` on the target ABI (32-bit unsigned int). -/
def UINT_MAX : ℕ := 4294967295

/-- `ULONG_MAX` on the target ABI (64-bit unsigned long). -/
def ULONG_MAX : ℕ := 18446744073709551615

/-- The body of the `fac` loop (tinyexpr.c:223-227): multiply `result` by
`i, i+1, ...` for `k` further iterations, returning `none` (the INFINITY
exit) as soon as the product would exceed ULONG_MAX.  The C loop runs `i`
from `1` to `ua`, i.e. `k = ua + 1 - i` iterations remain at counter value
`i`; recursing on `k` keeps the definition structural. -/
def fac_go (i result : ℕ) : ℕ → Option ℕ
  | 0 => some result
  | k + 1 =>
    if ULONG_MAX / result < i then none
    else fac_go (i + 1) (result * i) k

/-- The loop of `fac` entered at `i = 1`, `result = 1`, running to `ua`. -/
def fac_loop (ua : ℕ) : Option ℕ := fac_go 1 1 ua

/-- The builtin factorial `fac` (tinyexpr.c:216-229).  A NaN argument is
mapped to NaN (the C cast of NaN to unsigned is undefined; no claim reaches
it); infinities are caught by the two range guards exactly as in C. -/
def fac (a : TD) : TD :=
  if TD.lt a (.fin 0) then .nan
  else if TD.lt (.fin ⟨UINT_MAX, 1⟩) a then .inf
  else match a with
    | .fin q =>
        match fac_loop (Int.toNat q.trunc) with
        | some r => .fin ⟨r, 1⟩
        | none => .inf
    | _ => .nan

/-- The body of the `ncr` loop (tinyexpr.c:236-241):
`result = result*(un-ur+i)/i` for `k` further iterations starting at
counter `i`, returning `none` (INFINITY) when the multiplication would
overflow ULONG_MAX.  The C loop runs `i` from `1` to `ur`; recursing on the
remaining iteration count `k` keeps the definition structural. -/
def ncr_go (un ur i result : ℕ) : ℕ → Option ℕ
  | 0 => some result
  | k + 1 =>
    if ULONG_MAX / (un - ur + i) < result then none
    else ncr_go un ur (i + 1) (result * (un - ur + i) / i) k

/-- The loop of `ncr` entered at `i = 1`, `result = 1`, running to `ur`. -/
def ncr_loop (un ur : ℕ) : Option ℕ := ncr_go un ur 1 1 ur

/-- The builtin combination function `ncr` (tinyexpr.c:230-243). -/
def ncr (n r : TD) : TD :=
  if TD.lt n (.fin 0) || TD.lt r (.fin 0) || TD.lt n r then .nan
  else if TD.lt (.fin ⟨UINT_MAX, 1⟩) n || TD.lt (.fin ⟨UINT_MAX, 1⟩) r then .inf
  else match n, r with
    | .fin qn, .fin qr =>
        let un := Int.toNat qn.trunc
        let ur0 := Int.toNat qr.trunc
        let ur := if un / 2 < ur0 then un - ur0 else ur0
        match ncr_loop un ur with
        | some result => .fin ⟨result, 1⟩
        | none => .inf
    | _, _ => .nan

/-- The builtin permutation function `npr` (tinyexpr.c:244):
`npr(n, r) = ncr(n, r) * fac(r)`. -/
def npr (n r : TD) : TD := mul (ncr n r) (fac r)

/-- The builtin constant `pi` (tinyexpr.c:214), the exact decimal literal of
the source. -/
def piVal : Frac := ⟨314159265358979323846, 100000000000000000000⟩

/-- The builtin constant `e` (tinyexpr.c:215). -/
def eVal : Frac := ⟨271828182845904523536, 100000000000000000000⟩

/-- A C function pointer, identified by which function it points at.  The
parser recognises operators by comparing pointers
(`check_is_equal_function_pointer`, tinyexpr.c:113), which this models as
constructor equality.  `ln` binds libm `log` (`logE`) while, in the default
build without TE_NAT_LOG, both `log` and `log10` bind libm `log10`
(`log10F`), sharing a pointer exactly as in the C table.  Caller-supplied
functions and closures are opaque pointers `userF id`. -/
inductive FPtr where
  | addF | subF | mulF | divideF | fmodF | powF | negateF | commaF
  | piF | eF
  | fabsF | acosF | asinF | atanF | atan2F | ceilF | cosF | coshF | expF
  | facF | floorF | logE | log10F | sinF | sinhF | sqrtF | tanF | tanhF
  | ncrF | nprF
  | userF (id : ℕ)
deriving DecidableEq, Repr

/-- The semantics of the external functions the embedding keeps abstract:
the transcendental libm functions (whose IEEE-754 results are not exact
rationals) and the caller-supplied functions and closures.  Theorems hold
for every `Sem`; claim-relevant libm facts appear as hypotheses. -/
structure Sem where
  acosS : TD → TD
  asinS : TD → TD
  atanS : TD → TD
  cosS : TD → TD
  coshS : TD → TD
  expS : TD → TD
  logS : TD → TD
  log10S : TD → TD
  sinS : TD → TD
  sinhS : TD → TD
  sqrtS : TD → TD
  tanS : TD → TD
  tanhS : TD → TD
  atan2S : TD → TD → TD
  powS : TD → TD → TD
  userFn : ℕ → List TD → TD
  userClo : ℕ → ℕ → List TD → TD

/-- Call a function pointer on evaluated arguments, as `te_eval`'s
arity-indexed dispatch (tinyexpr.c:735-745) does.  A pointer applied at the
wrong arity (impossible for any tree `te_compile` returns) is undefined
behaviour in C and maps to NaN here. -/
def callFun (S : Sem) (f : FPtr) (vs : List TD) : TD :=
  match f, vs with
  | .addF, [a, b] => add a b
  | .subF, [a, b] => sub a b
  | .mulF, [a, b] => mul a b
  | .divideF, [a, b] => divide a b
  | .fmodF, [a, b] => fmod a b
  | .powF, [a, b] => S.powS a b
  | .negateF, [a] => negate a
  | .commaF, [a, b] => comma a b
  | .piF, [] => .fin piVal
  | .eF, [] => .fin eVal
  | .fabsF, [a] => fabs a
  | .acosF, [a] => S.acosS a
  | .asinF, [a] => S.asinS a
  | .atanF, [a] => S.atanS a
  | .atan2F, [a, b] => S.atan2S a b
  | .ceilF, [a] => tceil a
  | .cosF, [a] => S.cosS a
  | .coshF, [a] => S.coshS a
  | .expF, [a] => S.expS a
  | .facF, [a] => fac a
  | .floorF, [a] => tfloor a
  | .logE, [a] => S.logS a
  | .log10F, [a] => S.log10S a
  | .sinF, [a] => S.sinS a
  | .sinhF, [a] => S.sinhS a
  | .sqrtF, [a] => S.sqrtS a
  | .tanF, [a] => S.tanS a
  | .tanhF, [a] => S.tanhS a
  | .ncrF, [a, b] => ncr a b
  | .nprF, [a, b] => npr a b
  | .userF id, args => S.userFn id args
  | _, _ => .nan

/-- Call a closure pointer: the stored context pointer is passed as the
extra first argument (tinyexpr.c:750-757).  Only caller-supplied pointers
can sit in a closure node. -/
def callClo (S : Sem) (f : FPtr) (ctx : ℕ) (vs : List TD) : TD :=
  match f with
  | .userF id => S.userClo id ctx vs
  | _ => .nan

/-- A compiled expression node (`te_expr`, structured form of the
bit-packed `type` field): a constant, a variable holding the address of a
caller-owned double, or a function/closure node with its owned children.
The node's arity is the length of `args` (0..7 for every node the parser
builds). -/
inductive Expr where
  | econst (v : TD)
  | evar (addr : ℕ)
  | efun (pure : Bool) (f : FPtr) (args : List Expr)
  | eclo (pure : Bool) (f : FPtr) (ctx : ℕ) (args : List Expr)

/-- The heap of caller-owned doubles: a variable address read through
`*n->bound`. -/
def Env : Type := ℕ → TD

/-- The evaluator `te_eval` (tinyexpr.c:726-764): constants return their
value, variables re-read the bound address from the environment, function
and closure nodes evaluate their children left-to-right and apply the
stored pointer; the arity dispatch mirrors the C switch with its
`default: NAN` arm. -/
def te_eval (S : Sem) (env : Env) : Expr → TD
  | .econst v => v
  | .evar a => env a
  | .efun _ f args =>
    match args with
    | [] => callFun S f []
    | [a0] => callFun S f [te_eval S env a0]
    | [a0, a1] => callFun S f [te_eval S env a0, te_eval S env a1]
    | [a0, a1, a2] => callFun S f [te_eval S env a0, te_eval S env a1, te_eval S env a2]
    | [a0, a1, a2, a3] =>
        callFun S f [te_eval S env a0, te_eval S env a1, te_eval S env a2, te_eval S env a3]
    | [a0, a1, a2, a3, a4] =>
        callFun S f [te_eval S env a0, te_eval S env a1, te_eval S env a2, te_eval S env a3,
          te_eval S env a4]
    | [a0, a1, a2, a3, a4, a5] =>
        callFun S f [te_eval S env a0, te_eval S env a1, te_eval S env a2, te_eval S env a3,
          te_eval S env a4, te_eval S env a5]
    | [a0, a1, a2, a3, a4, a5, a6] =>
        callFun S f [te_eval S env a0, te_eval S env a1, te_eval S env a2, te_eval S env a3,
          te_eval S env a4, te_eval S env a5, te_eval S env a6]
    | _ => .nan
  | .eclo _ f ctx args =>
    match args with
    | [] => callClo S f ctx []
    | [a0] => callClo S f ctx [te_eval S env a0]
    | [a0, a1] => callClo S f ctx [te_eval S env a0, te_eval S env a1]
    | [a0, a1, a2] => callClo S f ctx [te_eval S env a0, te_eval S env a1, te_eval S env a2]
    | [a0, a1, a2, a3] =>
        callClo S f ctx [te_eval S env a0, te_eval S env a1, te_eval S env a2, te_eval S env a3]
    | [a0, a1, a2, a3, a4] =>
        callClo S f ctx [te_eval S env a0, te_eval S env a1, te_eval S env a2, te_eval S env a3,
          te_eval S env a4]
    | [a0, a1, a2, a3, a4, a5] =>
        callClo S f ctx [te_eval S env a0, te_eval S env a1, te_eval S env a2, te_eval S env a3,
          te_eval S env a4, te_eval S env a5]
    | [a0, a1, a2, a3, a4, a5, a6] =>
        callClo S f ctx [te_eval S env a0, te_eval S env a1, te_eval S env a2, te_eval S env a3,
          te_eval S env a4, te_eval S env a5, te_eval S env a6]
    | _ => .nan
termination_by structural e => e

/-- Whether a node is a constant (`type == TE_CONSTANT`). -/
def isConstE : Expr → Bool
  | .econst _ => true
  | _ => false

/-- The constant folder `optimize` (tinyexpr.c:769-794): constants and
variables are left alone; a pure node first optimizes its children and, if
they are then all constants, is replaced by a constant holding its
evaluated value (the fold reads no variable, so the environment passed here
is the compile-time heap, exactly as in C where the fold calls `te_eval`).
Children of impure nodes are not visited, as in the C code. -/
def optimize (S : Sem) (env : Env) : Expr → Expr
  | .econst v => .econst v
  | .evar a => .evar a
  | .efun p f args =>
    if p then
      let args2 :=
        match args with
        | [] => []
        | [a0] => [optimize S env a0]
        | [a0, a1] => [optimize S env a0, optimize S env a1]
        | [a0, a1, a2] => [optimize S env a0, optimize S env a1, optimize S env a2]
        | [a0, a1, a2, a3] =>
            [optimize S env a0, optimize S env a1, optimize S env a2, optimize S env a3]
        | [a0, a1, a2, a3, a4] =>
            [optimize S env a0, optimize S env a1, optimize S env a2, optimize S env a3,
              optimize S env a4]
        | [a0, a1, a2, a3, a4, a5] =>
            [optimize S env a0, optimize S env a1, optimize S env a2, optimize S env a3,
              optimize S env a4, optimize S env a5]
        | [a0, a1, a2, a3, a4, a5, a6] =>
            [optimize S env a0, optimize S env a1, optimize S env a2, optimize S env a3,
              optimize S env a4, optimize S env a5, optimize S env a6]
        | other => other
      if args2.all isConstE then .econst (te_eval S env (.efun p f args2))
      else .efun p f args2
    else .efun p f args
  | .eclo p f ctx args =>
    if p then
      let args2 :=
        match args with
        | [] => []
        | [a0] => [optimize S env a0]
        | [a0, a1] => [optimize S env a0, optimize S env a1]
        | [a0, a1, a2] => [optimize S env a0, optimize S env a1, optimize S env a2]
        | [a0, a1, a2, a3] =>
            [optimize S env a0, optimize S env a1, optimize S env a2, optimize S env a3]
        | [a0, a1, a2, a3, a4] =>
            [optimize S env a0, optimize S env a1, optimize S env a2, optimize S env a3,
              optimize S env a4]
        | [a0, a1, a2, a3, a4, a5] =>
            [optimize S env a0, optimize S env a1, optimize S env a2, optimize S env a3,
              optimize S env a4, optimize S env a5]
        | [a0, a1, a2, a3, a4, a5, a6] =>
            [optimize S env a0, optimize S env a1, optimize S env a2, optimize S env a3,
              optimize S env a4, optimize S env a5, optimize S env a6]
        | other => other
      if args2.all isConstE then .econst (te_eval S env (.eclo p f ctx args2))
      else .eclo p f ctx args2
    else .eclo p f ctx args
termination_by structural e => e

/-- The kind tag of a `te_variable` entry, the structured form of its
bit-packed `type` field: a variable address, or a function/closure of a
given arity (0..7 in the data model) and purity flag. -/
inductive BKind where
  | bvar (addr : ℕ)
  | bfun (arity : ℕ) (pure : Bool) (f : FPtr)
  | bclo (arity : ℕ) (pure : Bool) (f : FPtr) (ctx : ℕ)
deriving DecidableEq, Repr

/-- A `te_variable` binding entry: a name and what it is bound to. -/
structure TeVar where
  name : String
  kind : BKind
deriving DecidableEq, Repr

/-- The builtin table `functions` (tinyexpr.c:246-277), in the source's
(alphabetical) order, without the null terminator entry that ends the C
array.  In the default build (no TE_NAT_LOG) `ln` points at libm `log`
while `log` and `log10` both point at libm `log10`. -/
def functions : List TeVar := [
  ⟨"abs", .bfun 1 true .fabsF⟩,
  ⟨"acos", .bfun 1 true .acosF⟩,
  ⟨"asin", .bfun 1 true .asinF⟩,
  ⟨"atan", .bfun 1 true .atanF⟩,
  ⟨"atan2", .bfun 2 true .atan2F⟩,
  ⟨"ceil", .bfun 1 true .ceilF⟩,
  ⟨"cos", .bfun 1 true .cosF⟩,
  ⟨"cosh", .bfun 1 true .coshF⟩,
  ⟨"e", .bfun 0 true .eF⟩,
  ⟨"exp", .bfun 1 true .expF⟩,
  ⟨"fac", .bfun 1 true .facF⟩,
  ⟨"floor", .bfun 1 true .floorF⟩,
  ⟨"ln", .bfun 1 true .logE⟩,
  ⟨"log", .bfun 1 true .log10F⟩,
  ⟨"log10", .bfun 1 true .log10F⟩,
  ⟨"ncr", .bfun 2 true .ncrF⟩,
  ⟨"npr", .bfun 2 true .nprF⟩,
  ⟨"pi", .bfun 0 true .piF⟩,
  ⟨"pow", .bfun 2 true .powF⟩,
  ⟨"sin", .bfun 1 true .sinF⟩,
  ⟨"sinh", .bfun 1 true .sinhF⟩,
  ⟨"sqrt", .bfun 1 true .sqrtF⟩,
  ⟨"tan", .bfun 1 true .tanF⟩,
  ⟨"tanh", .bfun 1 true .tanhF⟩]

/-- The combined comparison of `find_builtin` (tinyexpr.c:286-287):
`strncmp(name, entry, len)` followed by `'\0' - entry[len]` when the first
`len` bytes agree.  With the token spelled out as a char list this is byte
lexicographic comparison where the end of the token reads as `'\0'`. -/
def cstrcmp : List Char → List Char → ℤ
  | [], [] => 0
  | [], _ :: _ => -1
  | _ :: _, [] => 1
  | a :: as, b :: bs => if a = b then cstrcmp as bs else (a.toNat : ℤ) - (b.toNat : ℤ)

/-- The binary search of `find_builtin` (tinyexpr.c:279-298), with the C
`int` indices kept as naturals: when the probe `i` is 0 and the comparison
says to move left, the C code sets `imax = -1` ending the loop, modelled by
the explicit `i = 0` exit.  The interval halves every step, so the `fuel`
parameter (needed only to make the recursion structural) is never exhausted
on the 24-entry table. -/
def find_builtin_go (nm : List Char) : ℕ → ℕ → ℕ → Option TeVar
  | 0, _, _ => none
  | fuel + 1, imin, imax =>
    if imax < imin then none
    else
      let i := imin + (imax - imin) / 2
      let f := functions.getD i ⟨"", .bvar 0⟩
      let c := cstrcmp nm f.name.data
      if c = 0 then some f
      else if 0 < c then find_builtin_go nm fuel (i + 1) imax
      else if i = 0 then none
      else find_builtin_go nm fuel imin (i - 1)

/-- `find_builtin`: search the whole table (`imax` is the index of the last
real entry, as in C where it is the element count minus 2). -/
def find_builtin (nm : List Char) : Option TeVar :=
  find_builtin_go nm 32 0 (functions.length - 1)

/-- The linear scan `find_lookup` (tinyexpr.c:300-311): first entry whose
name has exactly the token's characters (C checks `strncmp == 0` over the
token length and that the entry name ends there). -/
def find_lookup (lookup : List TeVar) (nm : List Char) : Option TeVar :=
  match lookup with
  | [] => none
  | v :: rest => if v.name.data = nm then some v else find_lookup rest nm

/-- Identifier resolution as performed in `next_token` (tinyexpr.c:343-344):
the caller's binding table is consulted first, the builtin table only if
that fails. -/
def resolve_var (lookup : List TeVar) (nm : List Char) : Option TeVar :=
  match find_lookup lookup nm with
  | some v => some v
  | none => find_builtin nm

/-- A lexer token (the `state.type` and its payload): the structured form
of the `TOK_*` / function-type values `next_token` stores. -/
inductive Tok where
  | num (v : TD)
  | tvar (addr : ℕ)
  | tfun (isClo : Bool) (arity : ℕ) (pure : Bool) (f : FPtr) (ctx : ℕ)
  | binop (f : FPtr)
  | oparen
  | cparen
  | sep
  | tokEnd
  | tokErr
deriving DecidableEq, Repr

/-- Digit in `0..9` (the C range check at tinyexpr.c:334, written on the
character code: `'0'` is 48 and `'9'` is 57). -/
def isDigitCh (c : Char) : Bool := decide (48 ≤ c.toNat) && decide (c.toNat ≤ 57)

/-- Lowercase ASCII letter (the C range check at tinyexpr.c:339: `'a'` is
97 and `'z'` is 122). -/
def isLowerCh (c : Char) : Bool := decide (97 ≤ c.toNat) && decide (c.toNat ≤ 122)

/-- A character the identifier scanner keeps consuming (tinyexpr.c:341):
lowercase letter, digit, or underscore. -/
def isIdCh (c : Char) : Bool := isLowerCh c || isDigitCh c || c == '_'

/-- The identifier scan loop of `next_token` (tinyexpr.c:341): split off the
longest prefix of identifier characters. -/
def scanId : List Char → List Char × List Char
  | [] => ([], [])
  | c :: rest =>
    if isIdCh c then
      let (a, b) := scanId rest
      (c :: a, b)
    else ([], c :: rest)

/-- Scan decimal digits, returning their value, how many there were, and
the rest of the input. -/
def decDigits : List Char → ℕ → ℕ → ℕ × ℕ × List Char
  | [], acc, cnt => (acc, cnt, [])
  | c :: rest, acc, cnt =>
    if isDigitCh c then decDigits rest (acc * 10 + (c.toNat - 48)) (cnt + 1)
    else (acc, cnt, c :: rest)

/-- Hexadecimal digit (`a`..`f` are 97..102, `A`..`F` are 65..70). -/
def isHexCh (c : Char) : Bool :=
  isDigitCh c || (decide (97 ≤ c.toNat) && decide (c.toNat ≤ 102)) ||
    (decide (65 ≤ c.toNat) && decide (c.toNat ≤ 70))

/-- Value of a hexadecimal digit. -/
def hexVal (c : Char) : ℕ :=
  if isDigitCh c then c.toNat - 48 else if decide (97 ≤ c.toNat) then c.toNat - 87
  else c.toNat - 55

/-- Scan hexadecimal digits. -/
def hexDigits : List Char → ℕ → ℕ → ℕ × ℕ × List Char
  | [], acc, cnt => (acc, cnt, [])
  | c :: rest, acc, cnt =>
    if isHexCh c then hexDigits rest (acc * 16 + hexVal c) (cnt + 1)
    else (acc, cnt, c :: rest)

/-- Scan an exponent suffix after its marker letter: an optional sign and a
digit string.  Returns `none` (nothing consumed) when no digit follows, as
`strtod` then ends the subject sequence before the marker. -/
def scanExp (s : List Char) : Option (ℤ × List Char) :=
  match s with
  | c :: rest =>
    if c == '+' then
      match decDigits rest 0 0 with
      | (v, cnt, r) => if cnt = 0 then none else some ((v : ℤ), r)
    else if c == '-' then
      match decDigits rest 0 0 with
      | (v, cnt, r) => if cnt = 0 then none else some (-(v : ℤ), r)
    else
      match decDigits s 0 0 with
      | (v, cnt, r) => if cnt = 0 then none else some ((v : ℤ), r)
  | [] => none

/-- Multiply a fraction by `b^e` for an exponent base `b` (10 for decimal
input, 2 for hexadecimal). -/
def applyExp (b : ℕ) (m : Frac) (e : ℤ) : Frac :=
  if 0 ≤ e then ⟨m.num * (b : ℤ) ^ e.toNat, m.den⟩ else ⟨m.num, m.den * b ^ (-e).toNat⟩

/-- Decimal part of the `strtod` model: digits, optional point and more
digits, optional `e`-exponent.  With no digit at all there is no conversion:
the value is 0 and nothing is consumed (so `strtod(".")` leaves the input
in place, exactly as libc does). -/
def strtodDec (s : List Char) : Frac × List Char :=
  match decDigits s 0 0 with
  | (ip, ic, r1) =>
    let fr :=
      match r1 with
      | '.' :: r => decDigits r 0 0
      | _ => (0, 0, r1)
    match fr with
    | (fp, fc, r2) =>
      if ic + fc = 0 then (0, s)
      else
        let mant : Frac := ⟨(ip : ℤ) * (10 : ℤ) ^ fc + (fp : ℤ), 10 ^ fc⟩
        match r2 with
        | c :: r3 =>
          if c == 'e' || c == 'E' then
            match scanExp r3 with
            | some (e, r4) => (applyExp 10 mant e, r4)
            | none => (mant, r2)
          else (mant, r2)
        | [] => (mant, [])

/-- Hexadecimal part of the `strtod` model, applied after a `0x` prefix
known to be followed by a hex digit sequence: hex mantissa with optional
point, optional binary `p`-exponent. -/
def strtodHex (s : List Char) : Frac × List Char :=
  match hexDigits s 0 0 with
  | (ip, _, r1) =>
    let fr :=
      match r1 with
      | '.' :: r => hexDigits r 0 0
      | _ => (0, 0, r1)
    match fr with
    | (fp, fc, r2) =>
      let mant : Frac := ⟨(ip : ℤ) * (16 : ℤ) ^ fc + (fp : ℤ), 16 ^ fc⟩
      match r2 with
      | c :: r3 =>
        if c == 'p' || c == 'P' then
          match scanExp r3 with
          | some (e, r4) => (applyExp 2 mant e, r4)
          | none => (mant, r2)
        else (mant, r2)
      | [] => (mant, [])

/-- Whether the text after a `0x` prefix starts a hexadecimal digit
sequence (possibly beginning with the point), which is what makes `strtod`
commit to a hexadecimal conversion. -/
def hexHasDigit : List Char → Bool
  | c :: r =>
    isHexCh c || (c == '.' && (match r with | d :: _ => isHexCh d | [] => false))
  | [] => false

/-- Model of libc `strtod` restricted to the inputs `next_token` can hand
it (the first character is a digit or a point, so signs, whitespace, `inf`
and `nan` forms are unreachable): decimal or `0x` hexadecimal text mapped
to its exact rational value, together with the unconsumed rest.  Values are
exact rationals; the claims only exercise small integers, where IEEE-754
`strtod` is also exact. -/
def strtodModel (s : List Char) : Frac × List Char :=
  match s with
  | '0' :: c :: rest =>
    if (c == 'x' || c == 'X') && hexHasDigit rest then strtodHex rest
    else strtodDec s
  | _ => strtodDec s

/-- A resolved identifier turned into the token `next_token` stores for it
(tinyexpr.c:349-365): variables carry their bound address, functions and
closures carry the arity/purity/pointer of the entry (closures also the
context pointer). -/
def ident_token (v : TeVar) : Tok :=
  match v.kind with
  | .bvar a => .tvar a
  | .bfun ar p f => .tfun false ar p f 0
  | .bclo ar p f ctx => .tfun true ar p f ctx

/-- The lexer `next_token` (tinyexpr.c:323-386) on the remaining input:
skips whitespace, reads a number (strtod), an identifier resolved through
the binding then builtin tables, an operator or punctuation character; end
of input gives the end token, anything else the error token. -/
def next_token (lookup : List TeVar) : List Char → Tok × List Char
  | [] => (.tokEnd, [])
  | c :: rest =>
    if isDigitCh c || c == '.' then
      match strtodModel (c :: rest) with
      | (v, r) => (.num (.fin v), r)
    else if isLowerCh c then
      match scanId (c :: rest) with
      | (nm, r) =>
        match resolve_var lookup nm with
        | none => (.tokErr, r)
        | some v => (ident_token v, r)
    else if c == '+' then (.binop .addF, rest)
    else if c == '-' then (.binop .subF, rest)
    else if c == '*' then (.binop .mulF, rest)
    else if c == '/' then (.binop .divideF, rest)
    else if c == '^' then (.binop .powF, rest)
    else if c == '%' then (.binop .fmodF, rest)
    else if c == '(' then (.oparen, rest)
    else if c == ')' then (.cparen, rest)
    else if c == ',' then (.sep, rest)
    else if c == ' ' || c == '\t' || c == '\n' || c == '\r' then next_token lookup rest
    else (.tokErr, rest)

/-- The parser state: the unconsumed input (`s->next`) and the current
token. -/
structure PSt where
  rest : List Char
  tok : Tok
deriving DecidableEq, Repr

/-- Read the next token into the state. -/
def advance (lookup : List TeVar) (st : PSt) : PSt :=
  match next_token lookup st.rest with
  | (t, r) => ⟨r, t⟩

/-- Mark the error state (`s->type = TOK_ERROR`). -/
def errSt (st : PSt) : PSt := ⟨st.rest, .tokErr⟩

/-- Build a function or closure node from its parts. -/
def mkNode (isClo p : Bool) (f : FPtr) (ctx : ℕ) (args : List Expr) : Expr :=
  if isClo then .eclo p f ctx args else .efun p f args

/-- A grammar production of the recursive-descent parser
(tinyexpr.c:389-719).  The `...L` rules are the trailing operator loops of
the corresponding C functions carrying the tree built so far; `rsign` is
the leading sign loop of `power` (carrying whether the collected sign is
positive); `rargs` is the argument loop of `base` for arities 2..7,
carrying the node data and the loop counter.  Splitting the loops into
rules lets the whole parser be one function that structurally recurses on
fuel, so the kernel can run it. -/
inductive PRule where
  | rlist
  | rlistL (ret : Expr)
  | rexpr
  | rexprL (ret : Expr)
  | rterm
  | rtermL (ret : Expr)
  | rfactor
  | rfactorL (ret : Expr)
  | rsign (positive : Bool)
  | rbase
  | rargs (isClo : Bool) (p : Bool) (f : FPtr) (ctx arity i : ℕ) (acc : List Expr)

/-- The recursive-descent parser (the C functions `list`, `expr`, `term`,
`factor`, `power`, `base`; the default build, so `factor` is the
left-associative version at tinyexpr.c:597-624).  Each C function is the
rule of the same name; `none` models a NULL return (which in C can only
arise from allocation failure — here only from fuel exhaustion, which
`te_compile`'s fuel budget keeps unreachable). -/
def parseR (lookup : List TeVar) : ℕ → PRule → PSt → Option (Expr × PSt)
  | 0, _, _ => none
  | fuel + 1, r, st =>
    match r with
    | .rlist =>
      match parseR lookup fuel .rexpr st with
      | none => none
      | some (ret, st1) => parseR lookup fuel (.rlistL ret) st1
    | .rlistL ret =>
      if st.tok = .sep then
        match parseR lookup fuel .rexpr (advance lookup st) with
        | none => none
        | some (param, st1) =>
            parseR lookup fuel (.rlistL (.efun true .commaF [ret, param])) st1
      else some (ret, st)
    | .rexpr =>
      match parseR lookup fuel .rterm st with
      | none => none
      | some (ret, st1) => parseR lookup fuel (.rexprL ret) st1
    | .rexprL ret =>
      match st.tok with
      | .binop f =>
        if f == .addF || f == .subF then
          match parseR lookup fuel .rterm (advance lookup st) with
          | none => none
          | some (param, st1) =>
              parseR lookup fuel (.rexprL (.efun true f [ret, param])) st1
        else some (ret, st)
      | _ => some (ret, st)
    | .rterm =>
      match parseR lookup fuel .rfactor st with
      | none => none
      | some (ret, st1) => parseR lookup fuel (.rtermL ret) st1
    | .rtermL ret =>
      match st.tok with
      | .binop f =>
        if f == .mulF || f == .divideF || f == .fmodF then
          match parseR lookup fuel .rfactor (advance lookup st) with
          | none => none
          | some (param, st1) =>
              parseR lookup fuel (.rtermL (.efun true f [ret, param])) st1
        else some (ret, st)
      | _ => some (ret, st)
    | .rfactor =>
      match parseR lookup fuel (.rsign true) st with
      | none => none
      | some (ret, st1) => parseR lookup fuel (.rfactorL ret) st1
    | .rfactorL ret =>
      match st.tok with
      | .binop f =>
        if f == .powF then
          match parseR lookup fuel (.rsign true) (advance lookup st) with
          | none => none
          | some (param, st1) =>
              parseR lookup fuel (.rfactorL (.efun true f [ret, param])) st1
        else some (ret, st)
      | _ => some (ret, st)
    | .rsign pos =>
      match st.tok with
      | .binop .addF => parseR lookup fuel (.rsign pos) (advance lookup st)
      | .binop .subF => parseR lookup fuel (.rsign (!pos)) (advance lookup st)
      | _ =>
        match parseR lookup fuel .rbase st with
        | none => none
        | some (ret, st1) =>
          if pos then some (ret, st1)
          else some (.efun true .negateF [ret], st1)
    | .rbase =>
      match st.tok with
      | .num v => some (.econst v, advance lookup st)
      | .tvar a => some (.evar a, advance lookup st)
      | .tfun isClo ar p f ctx =>
        if ar = 0 then
          let ret := mkNode isClo p f ctx []
          let st1 := advance lookup st
          if st1.tok = .oparen then
            let st2 := advance lookup st1
            if st2.tok = .cparen then some (ret, advance lookup st2)
            else some (ret, errSt st2)
          else some (ret, st1)
        else if ar = 1 then
          match parseR lookup fuel (.rsign true) (advance lookup st) with
          | none => none
          | some (arg, st1) => some (mkNode isClo p f ctx [arg], st1)
        else
          let st1 := advance lookup st
          if st1.tok = .oparen then
            parseR lookup fuel (.rargs isClo p f ctx ar 0 []) st1
          else some (mkNode isClo p f ctx [], errSt st1)
      | .oparen =>
        match parseR lookup fuel .rlist (advance lookup st) with
        | none => none
        | some (ret, st1) =>
          if st1.tok = .cparen then some (ret, advance lookup st1)
          else some (ret, errSt st1)
      | _ => some (.econst .nan, errSt st)
    | .rargs isClo p f ctx arity i acc =>
      match parseR lookup fuel .rexpr (advance lookup st) with
      | none => none
      | some (e, st1) =>
        let acc2 := acc ++ [e]
        if st1.tok = .sep then
          if i + 1 < arity then
            parseR lookup fuel (.rargs isClo p f ctx arity (i + 1) acc2) st1
          else some (mkNode isClo p f ctx acc2, errSt st1)
        else
          if st1.tok = .cparen then
            if i = arity - 1 then some (mkNode isClo p f ctx acc2, advance lookup st1)
            else some (mkNode isClo p f ctx acc2, errSt st1)
          else some (mkNode isClo p f ctx acc2, errSt st1)

/-- The state after te_compile's first `next_token(&s)` (tinyexpr.c:803). -/
def init_state (lookup : List TeVar) (input : List Char) : PSt :=
  match next_token lookup input with
  | (t, r) => ⟨r, t⟩

/-- The fuel budget handed to the parser: generous enough that on any input
every C call chain is covered (each consumed character can trigger only a
bounded number of parser steps). -/
def compile_fuel (input : List Char) : ℕ := 16 * input.length + 32

/-- The compiler `te_compile` (tinyexpr.c:797-825): lex the first token,
parse a `list`, then — exactly as the C code — succeed with the optimized
tree and error offset 0 only if the end token was reached; otherwise free
the tree and report `s.next - s.start` (the number of characters consumed),
forced to 1 when that is 0.  A NULL root (allocation failure in C, fuel
exhaustion here) reports offset 1. -/
def te_compile (S : Sem) (env : Env) (expression : String) (lookup : List TeVar) :
    Option Expr × ℕ :=
  match parseR lookup (compile_fuel expression.data) .rlist
      (init_state lookup expression.data) with
  | none => (none, 1)
  | some (root, st) =>
    if st.tok = .tokEnd then (some (optimize S env root), 0)
    else (none,
      if expression.data.length - st.rest.length = 0 then 1
      else expression.data.length - st.rest.length)

/-- The one-shot wrapper `te_interp` (tinyexpr.c:828-836): compile with no
bindings, evaluate, NaN on failure. -/
def te_interp (S : Sem) (env : Env) (expression : String) : TD × ℕ :=
  match te_compile S env expression [] with
  | (some n, err) => (te_eval S env n, err)
  | (none, err) => (.nan, err)

/-- A concrete choice of the abstract external semantics, used to
instantiate closed witnesses: the transcendental functions return NaN (no
witness exercises them) and `pow` is the exact power function on
nonnegative integer exponents, which is what IEEE-754 `pow` computes there
whenever the result is representable — in particular `pow(2,2) = 4` and
`pow(-2,2) = 4`. -/
def refSem : Sem where
  acosS := fun _ => .nan
  asinS := fun _ => .nan
  atanS := fun _ => .nan
  cosS := fun _ => .nan
  coshS := fun _ => .nan
  expS := fun _ => .nan
  logS := fun _ => .nan
  log10S := fun _ => .nan
  sinS := fun _ => .nan
  sinhS := fun _ => .nan
  sqrtS := fun _ => .nan
  tanS := fun _ => .nan
  tanhS := fun _ => .nan
  atan2S := fun _ _ => .nan
  powS := fun a b =>
    match a, b with
    | .fin x, .fin y =>
      if y.den = 1 && 0 ≤ y.num then .fin ⟨x.num ^ y.num.toNat, x.den ^ y.num.toNat⟩
      else .nan
    | _, _ => .nan
  userFn := fun _ _ => .nan
  userClo := fun _ _ _ => .nan

/-- A heap with every double reading as NaN, for witnesses that never look
at a variable. -/
def nanEnv : Env := fun _ => .nan

/-- The arity-indexed evaluation dispatch of a function node, written
uniformly: up to seven children are evaluated left-to-right and passed to
the pointer, more give the defensive NaN. -/
theorem te_eval_efun (S : Sem) (env : Env) (p : Bool) (f : FPtr) (args : List Expr) :
    te_eval S env (.efun p f args) =
      if args.length ≤ 7 then callFun S f (args.map (te_eval S env)) else .nan := by
  rcases args with _ | ⟨a0, _ | ⟨a1, _ | ⟨a2, _ | ⟨a3, _ | ⟨a4, _ | ⟨a5, _ | ⟨a6, _ | ⟨a7, r⟩⟩⟩⟩⟩⟩⟩⟩ <;>
    simp [te_eval, List.length_cons]

/-- The arity-indexed evaluation dispatch of a closure node, written
uniformly. -/
theorem te_eval_eclo (S : Sem) (env : Env) (p : Bool) (f : FPtr) (ctx : ℕ) (args : List Expr) :
    te_eval S env (.eclo p f ctx args) =
      if args.length ≤ 7 then callClo S f ctx (args.map (te_eval S env)) else .nan := by
  rcases args with _ | ⟨a0, _ | ⟨a1, _ | ⟨a2, _ | ⟨a3, _ | ⟨a4, _ | ⟨a5, _ | ⟨a6, _ | ⟨a7, r⟩⟩⟩⟩⟩⟩⟩⟩ <;>
    simp [te_eval, List.length_cons]

/-- `optimize` on a function node, written uniformly: a pure node optimizes
its children (the in-source arity is at most 7; longer lists, which the
parser never builds, are left as they are) and folds to a constant when
they are then all constants. -/
theorem optimize_efun (S : Sem) (env : Env) (p : Bool) (f : FPtr) (args : List Expr) :
    optimize S env (.efun p f args) =
      if p then
        (if (if args.length ≤ 7 then args.map (optimize S env) else args).all isConstE then
          .econst (te_eval S env
            (.efun p f (if args.length ≤ 7 then args.map (optimize S env) else args)))
        else .efun p f (if args.length ≤ 7 then args.map (optimize S env) else args))
      else .efun p f args := by
  rcases args with _ | ⟨a0, _ | ⟨a1, _ | ⟨a2, _ | ⟨a3, _ | ⟨a4, _ | ⟨a5, _ | ⟨a6, _ | ⟨a7, r⟩⟩⟩⟩⟩⟩⟩⟩ <;>
    simp [optimize, List.length_cons]

/-- `optimize` on a closure node, written uniformly. -/
theorem optimize_eclo (S : Sem) (env : Env) (p : Bool) (f : FPtr) (ctx : ℕ) (args : List Expr) :
    optimize S env (.eclo p f ctx args) =
      if p then
        (if (if args.length ≤ 7 then args.map (optimize S env) else args).all isConstE then
          .econst (te_eval S env
            (.eclo p f ctx (if args.length ≤ 7 then args.map (optimize S env) else args)))
        else .eclo p f ctx (if args.length ≤ 7 then args.map (optimize S env) else args))
      else .eclo p f ctx args := by
  rcases args with _ | ⟨a0, _ | ⟨a1, _ | ⟨a2, _ | ⟨a3, _ | ⟨a4, _ | ⟨a5, _ | ⟨a6, _ | ⟨a7, r⟩⟩⟩⟩⟩⟩⟩⟩ <;>
    simp [optimize, List.length_cons]

/-- Evaluation of a list of constant nodes does not depend on the heap. -/
theorem all_const_map_eval (S : Sem) (e1 e2 : Env) (l : List Expr)
    (h : l.all isConstE = true) : l.map (te_eval S e1) = l.map (te_eval S e2) := by
  apply List.map_congr_left
  intro a ha
  have hc := (List.all_eq_true.mp h) a ha
  cases a with
  | econst v => rfl
  | evar a => simp [isConstE] at hc
  | efun p f args => simp [isConstE] at hc
  | eclo p f ctx args => simp [isConstE] at hc

/-- The optimizer preserves evaluation: an optimized tree evaluates, under
any later heap, to the same value as the original tree (folding only ever
evaluates all-constant subtrees, so the compile-time heap `envc` is never
read). -/
theorem te_eval_optimize (S : Sem) (envc enve : Env) :
    ∀ n : Expr, te_eval S enve (optimize S envc n) = te_eval S enve n := by
  have key : ∀ (k : ℕ) (n : Expr), sizeOf n ≤ k →
      te_eval S enve (optimize S envc n) = te_eval S enve n := by
    intro k
    induction k with
    | zero =>
      intro n h
      exact absurd h (by cases n <;> simp)
    | succ k ih =>
      intro n hn
      cases n with
      | econst v => rfl
      | evar a => rfl
      | efun p f args =>
        have hargs : ∀ a ∈ args, sizeOf a ≤ k := by
          intro a ha
          have h1 := List.sizeOf_lt_of_mem ha
          simp [Expr.efun.sizeOf_spec] at hn
          omega
        have hmap : (args.map (optimize S envc)).map (te_eval S enve)
            = args.map (te_eval S enve) := by
          rw [List.map_map]
          apply List.map_congr_left
          intro a ha
          show te_eval S enve (optimize S envc a) = te_eval S enve a
          exact ih a (hargs a ha)
        rw [optimize_efun]
        by_cases hp : p = true
        · rw [if_pos hp]
          by_cases hlen : args.length ≤ 7
          · rw [if_pos hlen]
            by_cases hall : (args.map (optimize S envc)).all isConstE = true
            · rw [if_pos hall]
              show te_eval S envc (.efun p f (args.map (optimize S envc)))
                  = te_eval S enve (.efun p f args)
              rw [te_eval_efun, te_eval_efun,
                  if_pos (by simpa using hlen), if_pos hlen,
                  all_const_map_eval S envc enve _ hall, hmap]
            · rw [if_neg hall, te_eval_efun, te_eval_efun,
                  if_pos (by simpa using hlen), if_pos hlen, hmap]
          · rw [if_neg hlen]
            by_cases hall : args.all isConstE = true
            · rw [if_pos hall]
              show te_eval S envc (.efun p f args) = te_eval S enve (.efun p f args)
              rw [te_eval_efun, te_eval_efun, if_neg hlen, if_neg hlen]
            · rw [if_neg hall]
        · rw [if_neg hp]
      | eclo p f ctx args =>
        have hargs : ∀ a ∈ args, sizeOf a ≤ k := by
          intro a ha
          have h1 := List.sizeOf_lt_of_mem ha
          simp [Expr.eclo.sizeOf_spec] at hn
          omega
        have hmap : (args.map (optimize S envc)).map (te_eval S enve)
            = args.map (te_eval S enve) := by
          rw [List.map_map]
          apply List.map_congr_left
          intro a ha
          show te_eval S enve (optimize S envc a) = te_eval S enve a
          exact ih a (hargs a ha)
        rw [optimize_eclo]
        by_cases hp : p = true
        · rw [if_pos hp]
          by_cases hlen : args.length ≤ 7
          · rw [if_pos hlen]
            by_cases hall : (args.map (optimize S envc)).all isConstE = true
            · rw [if_pos hall]
              show te_eval S envc (.eclo p f ctx (args.map (optimize S envc)))
                  = te_eval S enve (.eclo p f ctx args)
              rw [te_eval_eclo, te_eval_eclo,
                  if_pos (by simpa using hlen), if_pos hlen,
                  all_const_map_eval S envc enve _ hall, hmap]
            · rw [if_neg hall, te_eval_eclo, te_eval_eclo,
                  if_pos (by simpa using hlen), if_pos hlen, hmap]
          · rw [if_neg hlen]
            by_cases hall : args.all isConstE = true
            · rw [if_pos hall]
              show te_eval S envc (.eclo p f ctx args) = te_eval S enve (.eclo p f ctx args)
              rw [te_eval_eclo, te_eval_eclo, if_neg hlen, if_neg hlen]
            · rw [if_neg hall]
        · rw [if_neg hp]
  intro n
  exact key (sizeOf n) n le_rfl


/-- Invariant of the `fac` loop: entered at counter `i` with the running
product `(i-1)!` still within range, `k` further iterations either complete
with the exact factorial of the final counter or detect that the product
would exceed ULONG_MAX and bail out to INFINITY — the product never
wraps. -/
theorem fac_go_spec : ∀ (k i : ℕ), 1 ≤ i → (i - 1).factorial ≤ ULONG_MAX →
    fac_go i ((i - 1).factorial) k =
      if (i + k - 1).factorial ≤ ULONG_MAX then some ((i + k - 1).factorial) else none := by
  intro k
  induction k with
  | zero =>
    intro i hi hle
    simp [fac_go, hle]
  | succ k ih =>
    intro i hi hle
    have hpos : 0 < (i - 1).factorial := Nat.factorial_pos _
    have hfaci : i.factorial = (i - 1).factorial * i := by
      cases i with
      | zero => omega
      | succ m => simp [Nat.factorial_succ]; ring
    rw [fac_go]
    by_cases hg : ULONG_MAX / (i - 1).factorial < i
    · rw [if_pos hg]
      have h1 : ULONG_MAX < i * (i - 1).factorial := (Nat.div_lt_iff_lt_mul hpos).mp hg
      have h2 : ULONG_MAX < i.factorial := by
        rw [hfaci, Nat.mul_comm]; exact h1
      have h3 : i.factorial ≤ (i + (k + 1) - 1).factorial := Nat.factorial_le (by omega)
      rw [if_neg (by omega)]
    · rw [if_neg hg]
      have h1 : i ≤ ULONG_MAX / (i - 1).factorial := by omega
      have h2 : i * (i - 1).factorial ≤ ULONG_MAX := (Nat.le_div_iff_mul_le hpos).mp h1
      have h3 : i.factorial ≤ ULONG_MAX := by
        rw [hfaci, Nat.mul_comm]; exact h2
      have h4 := ih (i + 1) (by omega) (by simpa using h3)
      simp only [Nat.add_sub_cancel] at h4
      have h5 : (i - 1).factorial * i = i.factorial := hfaci.symm
      rw [h5, h4]
      have h6 : i + 1 + k - 1 = i + (k + 1) - 1 := by omega
      rw [h6]

/-- The `fac` loop computes the exact factorial when it fits in an
unsigned long and reports overflow (INFINITY) otherwise. -/
theorem fac_loop_spec (ua : ℕ) :
    fac_loop ua = if ua.factorial ≤ ULONG_MAX then some ua.factorial else none := by
  have h := fac_go_spec ua 1 le_rfl (by simp [Nat.factorial]; decide)
  simpa [fac_loop, Nat.factorial] using h


/-- Claim C7: the builtin factorial `fac` returns NaN for every negative
argument (any finite negative double and -Infinity), returns the exact
factorial for small non-negative integer arguments (`fac(5) = 120`, and in
general the exact `n!` whenever the running product stays within
ULONG_MAX), and saturates to +Infinity rather than wrapping both for
arguments exceeding the unsigned-int range (any finite double above
UINT_MAX, and +Infinity) and whenever the running integer product would
overflow ULONG_MAX. -/
theorem C7_fac_spec (q : Frac) (n : ℕ) :
    (q.num < 0 → fac (.fin q) = .nan) ∧
    fac .neginf = .nan ∧
    fac (.fin ⟨5, 1⟩) = .fin ⟨120, 1⟩ ∧
    ((UINT_MAX : ℤ) * q.den < q.num → fac (.fin q) = .inf) ∧
    fac .inf = .inf ∧
    (n ≤ UINT_MAX →
      fac (.fin ⟨(n : ℤ), 1⟩) =
        if n.factorial ≤ ULONG_MAX then .fin ⟨(n.factorial : ℤ), 1⟩ else .inf) := by
  refine ⟨?_, by decide, by decide, ?_, by decide, ?_⟩
  · intro h
    have hlt : TD.lt (.fin q) (.fin 0) = true := by
      have h0 : (0 : Frac) = ⟨0, 1⟩ := rfl
      simp [TD.lt, Frac.blt, h0]
      omega
    simp [fac, hlt]
  · intro h
    have h1 : TD.lt (.fin q) (.fin 0) = false := by
      have h0 : (0 : Frac) = ⟨0, 1⟩ := rfl
      simp [TD.lt, Frac.blt, h0, UINT_MAX] at *
      omega
    have h2 : TD.lt (.fin ⟨(UINT_MAX : ℤ), 1⟩) (.fin q) = true := by
      simp [TD.lt, Frac.blt, UINT_MAX] at *
      omega
    simp [fac, h1, h2]
  · intro h
    have h1 : TD.lt (.fin ⟨(n : ℤ), 1⟩) (.fin 0) = false := by
      have h0 : (0 : Frac) = ⟨0, 1⟩ := rfl
      simp [TD.lt, Frac.blt, h0]
    have h2 : TD.lt (.fin ⟨(UINT_MAX : ℤ), 1⟩) (.fin ⟨(n : ℤ), 1⟩) = false := by
      simp [TD.lt, Frac.blt, UINT_MAX] at *
      omega
    have h3 : Frac.trunc ⟨(n : ℤ), 1⟩ = (n : ℤ) := by
      simp [Frac.trunc, Frac.floor, Int.fdiv_one]
    simp only [fac, h1, h2, Bool.false_eq_true, if_false, h3, Int.toNat_natCast,
      fac_loop_spec]
    by_cases hle : n.factorial ≤ ULONG_MAX
    · simp [hle]
    · simp [hle]

/-- Witness for C7 at concrete inputs: `fac(-1)` is NaN, `fac(5)` is 120,
and `fac(21)` (whose factorial exceeds ULONG_MAX) saturates to
+Infinity. -/
theorem C7_fac_spec_w :
    fac (.fin ⟨-1, 1⟩) = .nan ∧ fac (.fin ⟨5, 1⟩) = .fin ⟨120, 1⟩ ∧
    fac (.fin ⟨21, 1⟩) = .inf := by
  have h := (C7_fac_spec ⟨-1, 1⟩ 21).2.2.2.2.2 (by decide)
  rw [if_neg (by decide)] at h
  exact ⟨(C7_fac_spec ⟨-1, 1⟩ 21).1 (by decide), (C7_fac_spec ⟨-1, 1⟩ 21).2.2.1, h⟩


/-- NaN is absorbing on the left of IEEE multiplication. -/
theorem mul_nan_left (x : TD) : mul .nan x = .nan := by cases x <;> rfl

/-- The running product of the `fac` loop never drops below 1. -/
theorem fac_go_pos : ∀ (k i r : ℕ), 1 ≤ i → 1 ≤ r → ∀ m, fac_go i r k = some m → 1 ≤ m := by
  intro k
  induction k with
  | zero =>
    intro i r hi hr m hm
    simp [fac_go] at hm
    omega
  | succ k ih =>
    intro i r hi hr m hm
    rw [fac_go] at hm
    by_cases hg : ULONG_MAX / r < i
    · rw [if_pos hg] at hm
      exact absurd hm (by simp)
    · rw [if_neg hg] at hm
      have : 0 < r * i := Nat.mul_pos (by omega) (by omega)
      exact ih (i + 1) (r * i) (by omega) (by omega) m hm

/-- Claim C10: for all double arguments, `npr(n, r) = ncr(n, r) * fac(r)`
(this is its literal definition); consequently `npr` inherits every NaN
result of `ncr`, and it inherits `ncr`'s +Infinity saturation for every
well-defined (non-NaN) second argument, since `fac(r)` is then a positive
integer or +Infinity.  (With `r` NaN the C code's cast of NaN to unsigned
in `fac` is undefined behaviour, so that degenerate case is excluded.) -/
theorem C10_npr_relation (n r : TD) :
    npr n r = mul (ncr n r) (fac r) ∧
    (ncr n r = .nan → npr n r = .nan) ∧
    (r ≠ .nan → ncr n r = .inf → npr n r = .inf) := by
  refine ⟨rfl, ?_, ?_⟩
  · intro h
    show mul (ncr n r) (fac r) = .nan
    rw [h]
    exact mul_nan_left _
  · intro hr hinf
    show mul (ncr n r) (fac r) = .inf
    rw [hinf]
    cases r with
    | nan => exact absurd rfl hr
    | neginf => simp [ncr, TD.lt] at hinf
    | inf => decide
    | fin qr =>
      by_cases hq : Frac.blt qr 0 = true
      · have : TD.lt (.fin qr) (.fin 0) = true := hq
        simp [ncr, this] at hinf
      · have hqf : TD.lt (.fin qr) (.fin 0) = false := by
          simpa using hq
        have hfac : fac (.fin qr) = .inf ∨
            ∃ m : ℕ, 1 ≤ m ∧ fac (.fin qr) = .fin ⟨(m : ℤ), 1⟩ := by
          by_cases h2 : TD.lt (.fin ⟨(UINT_MAX : ℤ), 1⟩) (.fin qr) = true
          · left; simp [fac, hqf, h2]
          · cases hloop : fac_loop (Int.toNat qr.trunc) with
            | some m =>
              right
              exact ⟨m, fac_go_pos _ 1 1 le_rfl le_rfl m hloop,
                by simp [fac, hqf, h2, hloop]⟩
            | none => left; simp [fac, hqf, h2, hloop]
        rcases hfac with h | ⟨m, hm, h⟩
        · rw [h]; decide
        · rw [h]
          have h1 : Frac.isZero ⟨(m : ℤ), 1⟩ = false := by
            simp [Frac.isZero]; omega
          have h2 : Frac.blt 0 ⟨(m : ℤ), 1⟩ = true := by
            have h0 : (0 : Frac) = ⟨0, 1⟩ := rfl
            simp [Frac.blt, h0]; omega
          simp [mul, h1, h2]

/-- Witness for C10: a NaN case (`ncr(-1,1)`) and a saturation case
(`ncr(2^40, 2)` overflows) both propagate to `npr`. -/
theorem C10_npr_relation_w :
    ncr (.fin ⟨-1, 1⟩) (.fin ⟨1, 1⟩) = .nan ∧
    npr (.fin ⟨-1, 1⟩) (.fin ⟨1, 1⟩) = .nan ∧
    ncr (.fin ⟨1099511627776, 1⟩) (.fin ⟨2, 1⟩) = .inf ∧
    npr (.fin ⟨1099511627776, 1⟩) (.fin ⟨2, 1⟩) = .inf :=
  ⟨by decide,
   (C10_npr_relation (.fin ⟨-1, 1⟩) (.fin ⟨1, 1⟩)).2.1 (by decide),
   by decide,
   (C10_npr_relation (.fin ⟨1099511627776, 1⟩) (.fin ⟨2, 1⟩)).2.2 (by decide) (by decide)⟩


/-- Claim C1: a compiled tree stores only the address of a bound variable
and `te_eval` dereferences it on every call, never snapshotting the value:
compiling "x+1" with `x` bound to address `a` yields the tree
`add(var a, 1)`, and evaluating that same tree returns 4 when the double at
`a` holds 3 and 11 when it holds 10, with no recompilation. -/
theorem C1_variable_rebind (S : Sem) (env0 : Env) (a : ℕ) :
    (∀ env : Env, te_eval S env (.evar a) = env a) ∧
    te_compile S env0 "x+1" [⟨"x", .bvar a⟩] =
      (some (.efun true .addF [.evar a, .econst (.fin ⟨1, 1⟩)]), 0) ∧
    (∀ env : Env, env a = .fin ⟨3, 1⟩ →
      te_eval S env (.efun true .addF [.evar a, .econst (.fin ⟨1, 1⟩)]) = .fin ⟨4, 1⟩) ∧
    (∀ env : Env, env a = .fin ⟨10, 1⟩ →
      te_eval S env (.efun true .addF [.evar a, .econst (.fin ⟨1, 1⟩)]) = .fin ⟨11, 1⟩) := by
  refine ⟨fun env => rfl, rfl, fun env henv => ?_, fun env henv => ?_⟩
  · show callFun S .addF [env a, .fin ⟨1, 1⟩] = .fin ⟨4, 1⟩
    rw [henv]
    rfl
  · show callFun S .addF [env a, .fin ⟨1, 1⟩] = .fin ⟨11, 1⟩
    rw [henv]
    rfl

/-- Witness for C1: the compiled tree of "x+1" evaluates to 4 under a heap
holding 3 at the bound address and to 11 under a heap holding 10. -/
theorem C1_variable_rebind_w :
    te_eval refSem (fun _ => .fin ⟨3, 1⟩) (.efun true .addF [.evar 0, .econst (.fin ⟨1, 1⟩)])
        = .fin ⟨4, 1⟩ ∧
    te_eval refSem (fun _ => .fin ⟨10, 1⟩) (.efun true .addF [.evar 0, .econst (.fin ⟨1, 1⟩)])
        = .fin ⟨11, 1⟩ :=
  ⟨(C1_variable_rebind refSem nanEnv 0).2.2.1 _ rfl,
   (C1_variable_rebind refSem nanEnv 0).2.2.2 _ rfl⟩

/-- Counterexample to C2: in the default build the compiled "-2^2"
evaluates to 4 (the tree is `pow(neg(2), 2)`, folded to the constant 4
under a `Sem` whose pow agrees with IEEE at (-2, 2)), not to -4 as the
claim states. -/
theorem C2_counterexample :
    te_compile refSem nanEnv "-2^2" [] = (some (.econst (.fin ⟨4, 1⟩)), 0) ∧
    te_eval refSem nanEnv (.econst (.fin ⟨4, 1⟩)) = .fin ⟨4, 1⟩ ∧
    TD.fin ⟨4, 1⟩ ≠ TD.fin ⟨-4, 1⟩ :=
  ⟨rfl, rfl, by decide⟩

/-- Claim C2 as amended: under the default build configuration unary minus
binds tighter than the exponentiation operator: "-2^2" parses as
`pow(negate(2), 2)`, i.e. (-2)^2, and (for any semantics agreeing with
IEEE pow at (-2, 2)) the compiled tree is the constant 4. -/
theorem C2_default_pow_left (S : Sem) (env : Env)
    (h : S.powS (.fin ⟨-2, 1⟩) (.fin ⟨2, 1⟩) = .fin ⟨4, 1⟩) :
    parseR [] (compile_fuel "-2^2".data) .rlist (init_state [] "-2^2".data) =
      some (.efun true .powF [.efun true .negateF [.econst (.fin ⟨2, 1⟩)],
            .econst (.fin ⟨2, 1⟩)], ⟨[], .tokEnd⟩) ∧
    te_compile S env "-2^2" [] = (some (.econst (.fin ⟨4, 1⟩)), 0) := by
  refine ⟨rfl, ?_⟩
  have hc : te_compile S env "-2^2" [] =
      (some (.econst (S.powS (.fin ⟨-2, 1⟩) (.fin ⟨2, 1⟩))), 0) := rfl
  rw [hc, h]

/-- Witness for the amended C2 at the concrete reference semantics. -/
theorem C2_default_pow_left_w :
    te_compile refSem nanEnv "-2^2" [] = (some (.econst (.fin ⟨4, 1⟩)), 0) :=
  (C2_default_pow_left refSem nanEnv rfl).2

/-- Counterexample to C5: compiling "foo(1)" with no bindings fails with
stored offset 3, not the claimed offset 1 of the identifier start. -/
theorem C5_counterexample :
    te_compile refSem nanEnv "foo(1)" [] = (none, 3) ∧ (3 : ℕ) ≠ 1 :=
  ⟨rfl, by decide⟩

/-- Claim C5 as amended: an identifier matching neither table makes
`te_compile` return a null tree, and the stored offset is the number of
characters consumed through the END of that identifier (the lexer advances
past it before resolving), i.e. the 1-based position of its last
character: offset 3 for "foo(1)".  The lexer itself produces the error
token having consumed exactly "foo". -/
theorem C5_unresolved_offset (S : Sem) (env : Env) :
    te_compile S env "foo(1)" [] = (none, 3) ∧
    "foo(1)".data.take 3 = "foo".data ∧
    next_token [] "foo(1)".data = (.tokErr, "(1)".data) :=
  ⟨rfl, rfl, rfl⟩

/-- Claim C6: identifier resolution consults the caller's binding table
before the builtin table, so any hit there wins; concretely, a binding
named "pi" shadows the builtin `pi`: the compiled tree is the caller's
variable, while without the binding it is the folded builtin constant. -/
theorem C6_binding_shadows_builtin (lookup : List TeVar) (nm : List Char) (v : TeVar)
    (h : find_lookup lookup nm = some v) :
    resolve_var lookup nm = some v ∧
    (∀ (S : Sem) (env : Env) (a : ℕ),
      te_compile S env "pi" [⟨"pi", .bvar a⟩] = (some (.evar a), 0)) ∧
    (∀ (S : Sem) (env : Env),
      te_compile S env "pi" [] = (some (.econst (.fin piVal)), 0)) := by
  refine ⟨?_, fun S env a => rfl, fun S env => rfl⟩
  simp [resolve_var, h]

/-- Witness for C6: a binding named "pi" at address 7 shadows the builtin,
which would otherwise be found. -/
theorem C6_binding_shadows_builtin_w :
    resolve_var [⟨"pi", .bvar 7⟩] ['p', 'i'] = some ⟨"pi", .bvar 7⟩ ∧
    te_compile refSem nanEnv "pi" [⟨"pi", .bvar 7⟩] = (some (.evar 7), 0) ∧
    find_builtin ['p', 'i'] = some ⟨"pi", .bfun 0 true .piF⟩ :=
  ⟨(C6_binding_shadows_builtin [⟨"pi", .bvar 7⟩] ['p', 'i'] _ rfl).1,
   (C6_binding_shadows_builtin [⟨"pi", .bvar 7⟩] ['p', 'i'] _ rfl).2.1 refSem nanEnv 7,
   rfl⟩

/-- Claim C8: comma is compiled as a pure binary function returning its
second argument, a top-level comma sequence is legal, and "1,2,3" compiles
(to the comma tree, folded by the optimizer to the constant 3) and
evaluates to 3. -/
theorem C8_comma_list (S : Sem) (env : Env) :
    (∀ a b : TD, callFun S .commaF [a, b] = b) ∧
    parseR [] (compile_fuel "1,2,3".data) .rlist (init_state [] "1,2,3".data) =
      some (.efun true .commaF
        [.efun true .commaF [.econst (.fin ⟨1, 1⟩), .econst (.fin ⟨2, 1⟩)],
         .econst (.fin ⟨3, 1⟩)], ⟨[], .tokEnd⟩) ∧
    te_compile S env "1,2,3" [] = (some (.econst (.fin ⟨3, 1⟩)), 0) ∧
    te_eval S env (.econst (.fin ⟨3, 1⟩)) = .fin ⟨3, 1⟩ :=
  ⟨fun _ _ => rfl, rfl, rfl, rfl⟩

/-- Claim C3: te_compile returns a tree exactly when it stores error offset
0; every failure stores a 1-based offset into the expression, never 0 (it
is forced to 1 when failure is detected at the very start, and defaults to
1 on a null parse result, the allocation-failure channel). -/
theorem C3_compile_null_iff_offset (S : Sem) (env : Env) (e : String) (lookup : List TeVar) :
    ((te_compile S env e lookup).1 ≠ none ↔ (te_compile S env e lookup).2 = 0) ∧
    ((te_compile S env e lookup).1 = none →
      1 ≤ (te_compile S env e lookup).2 ∧
      (te_compile S env e lookup).2 ≤ max e.length 1) := by
  have hlen : e.length = e.data.length := rfl
  rcases hp : parseR lookup (compile_fuel e.data) .rlist (init_state lookup e.data)
    with _ | ⟨root, st⟩
  · have hc : te_compile S env e lookup = (none, 1) := by
      unfold te_compile; rw [hp]
    rw [hc]
    simp
  · by_cases hend : st.tok = .tokEnd
    · have hc : te_compile S env e lookup = (some (optimize S env root), 0) := by
        unfold te_compile; rw [hp]; dsimp only; rw [if_pos hend]
      rw [hc]
      simp
    · have hc : te_compile S env e lookup =
          (none, if e.data.length - st.rest.length = 0 then 1
                 else e.data.length - st.rest.length) := by
        unfold te_compile; rw [hp]; dsimp only; rw [if_neg hend]
      rw [hc]
      have hsub : e.data.length - st.rest.length ≤ e.data.length := Nat.sub_le _ _
      by_cases hz : e.data.length - st.rest.length = 0
      · rw [if_pos hz]
        exact ⟨⟨fun hne => absurd rfl hne, fun h0 => absurd h0 one_ne_zero⟩,
          fun _ => by omega⟩
      · rw [if_neg hz]
        exact ⟨⟨fun hne => absurd rfl hne, fun h0 => absurd h0 hz⟩,
          fun _ => by omega⟩

/-- Witness for C3 at the failing input "foo(1)": the stored offset is
nonzero, at least 1, and within the expression. -/
theorem C3_compile_null_iff_offset_w :
    ((te_compile refSem nanEnv "foo(1)" []).2 ≠ 0) ∧
    1 ≤ (te_compile refSem nanEnv "foo(1)" []).2 ∧
    (te_compile refSem nanEnv "foo(1)" []).2 ≤ max (String.length "foo(1)") 1 := by
  have h := C3_compile_null_iff_offset refSem nanEnv "foo(1)" []
  refine ⟨fun h0 => (h.1.mpr h0) rfl, h.2 rfl⟩


/-- The identifier scan loop consumes exactly the maximal run of
identifier characters. -/
theorem scanId_eq (s : List Char) :
    scanId s = (s.takeWhile isIdCh, s.dropWhile isIdCh) := by
  induction s with
  | nil => rfl
  | cons c rest ih =>
    by_cases h : isIdCh c = true
    · simp [scanId, List.takeWhile_cons, List.dropWhile_cons, h, ih]
    · simp [scanId, List.takeWhile_cons, List.dropWhile_cons, h]

/-- Counterexample to C9: "_x" is a maximal run of identifier characters
not starting with a digit, and a binding with that very name exists, yet
the lexer emits an error token consuming only the underscore — a run
starting with an underscore is never lexed as an identifier nor resolved
against the tables (the branch is entered only for a lowercase letter). -/
theorem C9_counterexample :
    next_token [⟨"_x", .bvar 0⟩] ('_' :: 'x' :: []) = (.tokErr, ['x']) ∧
    find_lookup [⟨"_x", .bvar 0⟩] ['_', 'x'] = some ⟨"_x", .bvar 0⟩ ∧
    ('_' :: 'x' :: []).takeWhile isIdCh = ['_', 'x'] :=
  ⟨rfl, rfl, rfl⟩

/-- Claim C9 as amended: every maximal run of lowercase letters, digits
and underscores that starts with a LOWERCASE LETTER is lexed as one
identifier token (the lexer consumes exactly the maximal run); an
identifier matching neither the binding nor the builtin table yields the
error token, and a resolved one yields the corresponding
variable/function token, never the error token. -/
theorem C9_identifier_lexing (lookup : List TeVar) (c : Char) (rest : List Char)
    (h : isLowerCh c = true) :
    next_token lookup (c :: rest) =
      ((match resolve_var lookup ((c :: rest).takeWhile isIdCh) with
        | none => Tok.tokErr
        | some v => ident_token v),
       (c :: rest).dropWhile isIdCh) ∧
    (resolve_var lookup ((c :: rest).takeWhile isIdCh) = none →
      (next_token lookup (c :: rest)).1 = .tokErr) ∧
    (∀ v, resolve_var lookup ((c :: rest).takeWhile isIdCh) = some v →
      (next_token lookup (c :: rest)).1 = ident_token v ∧
      (next_token lookup (c :: rest)).1 ≠ .tokErr) := by
  have hd : isDigitCh c = false := by
    simp [isDigitCh, isLowerCh] at h ⊢
    omega
  have hdot : (c == '.') = false := by
    by_cases hc : c = '.'
    · subst hc
      exact absurd h (by decide)
    · simp [hc]
  have key : next_token lookup (c :: rest) =
      ((match resolve_var lookup ((c :: rest).takeWhile isIdCh) with
        | none => Tok.tokErr
        | some v => ident_token v),
       (c :: rest).dropWhile isIdCh) := by
    rw [next_token, hd, hdot, scanId_eq]
    simp [h]
    cases resolve_var lookup ((c :: rest).takeWhile isIdCh) <;> rfl
  refine ⟨key, fun hres => ?_, fun v hres => ?_⟩
  · rw [key, hres]
  · constructor
    · rw [key, hres]
    · rw [key, hres]
      cases hk : v.kind <;> simp [ident_token, hk]

/-- Witness for the amended C9: lexing "pi+1" produces the builtin token
for `pi` and not an error token. -/
theorem C9_identifier_lexing_w :
    (next_token [] ('p' :: "i+1".data)).1 = ident_token ⟨"pi", .bfun 0 true .piF⟩ ∧
    (next_token [] ('p' :: "i+1".data)).1 ≠ .tokErr :=
  (C9_identifier_lexing [] 'p' "i+1".data rfl).2.2 ⟨"pi", .bfun 0 true .piF⟩ rfl


/-- Claim C4: the constant-folding optimizer preserves evaluation
semantics (an optimized tree evaluates identically under any heap), it
folds pure all-constant subtrees completely — compiling "2+3" and "5" both
yield the single constant node 5, which evaluates to 5 — and in general a
pure function node whose recursively optimized children are all constants
is replaced by a constant holding its evaluated value. -/
theorem C4_constant_folding (S : Sem) (envc enve : Env) :
    (∀ n : Expr, te_eval S enve (optimize S envc n) = te_eval S enve n) ∧
    te_compile S envc "2+3" [] = (some (.econst (.fin ⟨5, 1⟩)), 0) ∧
    te_compile S envc "5" [] = (some (.econst (.fin ⟨5, 1⟩)), 0) ∧
    te_eval S enve (.econst (.fin ⟨5, 1⟩)) = .fin ⟨5, 1⟩ ∧
    (∀ (f : FPtr) (args : List Expr),
      args.length ≤ 7 →
      (args.map (optimize S envc)).all isConstE = true →
      optimize S envc (.efun true f args) =
        .econst (te_eval S envc (.efun true f (args.map (optimize S envc))))) := by
  refine ⟨te_eval_optimize S envc enve, rfl, rfl, rfl, fun f args hlen hall => ?_⟩
  rw [optimize_efun]
  simp [hlen, hall]

/-- Witness for C4: preservation at a non-foldable tree (2 + x), the
concrete compile of "2+3", and the fold of a concrete pure all-constant
node. -/
theorem C4_constant_folding_w :
    te_eval refSem nanEnv (optimize refSem nanEnv
        (.efun true .addF [.econst (.fin ⟨2, 1⟩), .evar 0])) =
      te_eval refSem nanEnv (.efun true .addF [.econst (.fin ⟨2, 1⟩), .evar 0]) ∧
    te_compile refSem nanEnv "2+3" [] = (some (.econst (.fin ⟨5, 1⟩)), 0) ∧
    optimize refSem nanEnv (.efun true .addF [.econst (.fin ⟨2, 1⟩), .econst (.fin ⟨3, 1⟩)]) =
      .econst (te_eval refSem nanEnv (.efun true .addF
        ([.econst (.fin ⟨2, 1⟩), .econst (.fin ⟨3, 1⟩)].map (optimize refSem nanEnv)))) :=
  ⟨(C4_constant_folding refSem nanEnv nanEnv).1 _,
   (C4_constant_folding refSem nanEnv nanEnv).2.1,
   (C4_constant_folding refSem nanEnv nanEnv).2.2.2.2 .addF _ (by decide) (by rfl)⟩


end TinyExpr
